import Mathlib

set_option maxHeartbeats 1000000

/-! Shallow embedding of the MultiQC_CMGG parsing and derivation code
    (src/multiqc_cmgg/modules/sample_gender/sample_gender.py and
    src/multiqc_cmgg/modules/targeted_MSH2/targeted_MSH2.py).
    A raw file text is modelled as the list of its lines (the result of
    Python str.splitlines); Python dicts are insertion-ordered association
    lists with unique keys; Python floats are exact rationals together with
    nan and signed-infinity markers; exceptions raised by the Python code
    become an explicit error type threaded through Except. -/

/-- A Python float value: nan, a signed infinity, or a finite rational. -/
inductive PyFloat where
  | nan : PyFloat
  | inf : Bool → PyFloat
  | val : ℚ → PyFloat
deriving DecidableEq, Repr

/-- A value stored in a parsed record (Python Union of float, int, str). -/
inductive PyVal where
  | float : PyFloat → PyVal
  | int : ℤ → PyVal
  | str : String → PyVal
deriving DecidableEq, Repr

/-- The exceptions the embedded code can raise. -/
inductive PyErr where
  | indexError : PyErr
  | keyError : PyErr
  | valueError : PyErr
  | zeroDivisionError : PyErr
deriving DecidableEq, Repr

instance exceptDecEq {ε α : Type} [DecidableEq ε] [DecidableEq α] : DecidableEq (Except ε α) :=
  fun x y =>
    match x, y with
    | Except.ok a, Except.ok b =>
        decidable_of_iff (a = b) ⟨fun h => by rw [h], fun h => by injection h⟩
    | Except.error a, Except.error b =>
        decidable_of_iff (a = b) ⟨fun h => by rw [h], fun h => by injection h⟩
    | Except.ok _, Except.error _ => isFalse (fun h => Except.noConfusion h)
    | Except.error _, Except.ok _ => isFalse (fun h => Except.noConfusion h)

/-- A Python dict with string keys: an insertion-ordered association list;
    dictInsert replaces an existing binding in place, so keys stay unique. -/
abbrev PyDict := List (String × PyVal)

/-- Assignment d[k] = v: replace the first binding of k, else append. -/
def dictInsert (k : String) (v : PyVal) : PyDict → PyDict
  | [] => [(k, v)]
  | (k0, v0) :: rest => if k0 = k then (k, v) :: rest else (k0, v0) :: dictInsert k v rest

/-- Lookup d.get(k): the first binding of k, if any. -/
def dictGet? (k : String) : PyDict → Option PyVal
  | [] => none
  | (k0, v0) :: rest => if k0 = k then some v0 else dictGet? k rest

theorem dictGet?_insert (k kq : String) (v : PyVal) (d : PyDict) :
    dictGet? kq (dictInsert k v d) = if k = kq then some v else dictGet? kq d := by
  induction d with
  | nil =>
      by_cases h : k = kq <;> simp [dictInsert, dictGet?, h]
  | cons p rest ih =>
      obtain ⟨k0, v0⟩ := p
      by_cases h0 : k0 = k
      · subst h0
        by_cases h : k0 = kq <;> simp [dictInsert, dictGet?, h]
      · by_cases h : k0 = kq
        · subst h
          have hk : ¬ (k0 = k) := h0
          have hk2 : ¬ (k = k0) := fun hh => h0 hh.symm
          simp [dictInsert, dictGet?, hk, hk2]
        · simp [dictInsert, dictGet?, h0, h, ih]

/-- Leading and trailing whitespace removed from a character list. -/
def trimChars (l : List Char) : List Char :=
  ((l.dropWhile Char.isWhitespace).reverse.dropWhile Char.isWhitespace).reverse

/-- Python str.strip(): remove leading and trailing whitespace. -/
def pyStrip (s : String) : String := String.mk (trimChars s.data)

/-- Split a character list at every separator occurrence. -/
def splitAcc (sep : Char) : List Char → List Char → List String
  | [], acc => [String.mk acc.reverse]
  | c :: r, acc =>
      if c = sep then String.mk acc.reverse :: splitAcc sep r []
      else splitAcc sep r (c :: acc)

/-- Python s.split(sep) for a single-character separator. -/
def pySplit (sep : Char) (s : String) : List String := splitAcc sep s.data []

/-- Python s.lower(). -/
def strLower (s : String) : String := String.mk (s.data.map Char.toLower)

/-- The slice xs[1:6] used to take columns 2 through 6 (1-indexed). -/
def slice16 {α : Type} (xs : List α) : List α := (xs.drop 1).take 5

/-- Columns 2 to 6 of a line: line.strip().split(sep)[1:6]. -/
def cols26 (sep : Char) (line : String) : List String := slice16 (pySplit sep (pyStrip line))

/-- The natural number denoted by a list of decimal digit characters. -/
def digitsToNat (l : List Char) : ℕ :=
  l.foldl (fun a c => a * 10 + (c.toNat - Char.toNat '0')) 0

/-- A nonempty run of decimal digits, as an integer. -/
def pyDigits? (l : List Char) : Option ℤ :=
  if l ≠ [] ∧ l.all Char.isDigit then some ((digitsToNat l : ℤ)) else none

/-- Python int(s): strip whitespace, optional sign, nonempty digit string. -/
def pyInt? (s : String) : Option ℤ :=
  match (pyStrip s).data with
  | '+' :: r => pyDigits? r
  | '-' :: r => (pyDigits? r).map (fun n => -n)
  | r => pyDigits? r

/-- Ten to an integer power, as a rational. -/
def powTen (e : ℤ) : ℚ :=
  if 0 ≤ e then ((10 : ℚ) ^ e.toNat) else 1 / (10 : ℚ) ^ (-e).toNat

/-- The exponent part of a float literal: optional sign, nonempty digits. -/
def parseExpPart (l : List Char) : Option ℤ :=
  match l with
  | '+' :: r => pyDigits? r
  | '-' :: r => (pyDigits? r).map (fun n => -n)
  | r => pyDigits? r

/-- An unsigned Python float literal: digits with optional fraction part,
    then an optional exponent part. -/
def parseUFloat (l : List Char) : Option ℚ :=
  let ds1 := l.takeWhile Char.isDigit
  let r1 := l.dropWhile Char.isDigit
  match r1 with
  | [] => if ds1 = [] then none else some ((digitsToNat ds1 : ℚ))
  | '.' :: r2 =>
      let ds2 := r2.takeWhile Char.isDigit
      let r3 := r2.dropWhile Char.isDigit
      if ds1 = [] ∧ ds2 = [] then none
      else
        let m : ℚ := (digitsToNat ds1 : ℚ) + (digitsToNat ds2 : ℚ) / (10 : ℚ) ^ ds2.length
        match r3 with
        | [] => some m
        | c :: r4 =>
            if c = 'e' ∨ c = 'E' then (parseExpPart r4).map (fun ex => m * powTen ex) else none
  | c :: r2 =>
      if ds1 ≠ [] ∧ (c = 'e' ∨ c = 'E') then
        (parseExpPart r2).map (fun ex => (digitsToNat ds1 : ℚ) * powTen ex)
      else none

/-- Python float(s): strip, optional sign, then nan, inf or a decimal
    literal; none when the text is not a float literal (ValueError). -/
def pyFloat? (s : String) : Option PyFloat :=
  let t := (pyStrip s).data
  let signed : Bool × List Char :=
    match t with
    | '+' :: r => (false, r)
    | '-' :: r => (true, r)
    | r => (false, r)
  let neg := signed.1
  let body := signed.2
  let low := body.map Char.toLower
  if low = "nan".data then some PyFloat.nan
  else if low = "inf".data ∨ low = "infinity".data then some (PyFloat.inf neg)
  else (parseUFloat body).map (fun q => PyFloat.val (if neg then -q else q))

/-- Build a record by inserting each (key, value) pair in order, the value
    transformed by f (Python dict construction in a loop). -/
def buildDict (pairs : List (String × String)) (f : String → PyVal) : PyDict :=
  pairs.foldl (fun acc kv => dictInsert kv.1 (f kv.2) acc) []

/-- Full-name to abbreviation mapping applied to values[0]
    (sample_gender.py lines 189-192). -/
def canonSex (v : String) : String :=
  if strLower v = "male" then "M" else if strLower v = "female" then "F" else v

/-- The canonicalization applied at index 0 of the extracted value slice. -/
def canonValues : List String → List String
  | [] => []
  | v :: t => canonSex v :: t

/-- headers[0] = newKey; in the source this runs only when the membership
    test has established the list is nonempty. -/
def setHead (newKey : String) : List String → List String
  | [] => []
  | _ :: t => newKey :: t

/-- Source column names mapped to internal keys (sample_gender.py 195-199). -/
def paramMap : List (String × String) :=
  [("reads_chry", "gender_xy"), ("het_fraction", "gender_hetx"), ("coverage_sry", "gender_sry")]

/-- For each map entry in order: if the column name occurs anywhere in the
    current header list, overwrite the header at position 0
    (sample_gender.py lines 209-212). -/
def renameHeaders (hs : List String) : List String :=
  paramMap.foldl (fun acc p => if p.1 ∈ acc then setHead p.2 acc else acc) hs

/-- Type coercion of one value (sample_gender.py 214-222): try float(), map
    nan to the not-available sentinel, keep the raw string on failure. -/
def coerceVal (v : String) : PyVal :=
  match pyFloat? v with
  | some PyFloat.nan => PyVal.str "N/A"
  | some x => PyVal.float x
  | none => PyVal.str v

/-- sample_gender.parse_file (lines 174-224) on the splitlines of the raw
    text: below 2 lines an empty record; reading values[0] on an empty
    value slice raises IndexError; otherwise canonicalize, rename headers,
    and zip with coercion. -/
def sgParseFile (lines : List String) : Except PyErr PyDict :=
  if lines.length < 2 then Except.ok []
  else
    match cols26 '\t' (lines.getD 1 "") with
    | [] => Except.error PyErr.indexError
    | v :: vt =>
        Except.ok (buildDict
          ((renameHeaders (cols26 '\t' (lines.getD 0 ""))).zip (canonValues (v :: vt)))
          coerceVal)

/-- The three method fields consulted by the consensus derivation. -/
def genderMethods : List String := ["gender_xy", "gender_hetx", "gender_sry"]

/-- How many of the three method fields hold exactly the given string. -/
def countGender (d : PyDict) (g : String) : ℕ :=
  (genderMethods.filter (fun m => dictGet? m d = some (PyVal.str g))).length

/-- sample_gender._calculate_gender_consensus lines 80-91 for one record:
    the certainty fraction and the consensus call from the two counts. -/
def consensusOf (cM cF : ℕ) : ℚ × String :=
  if cF ≤ cM then ((cM : ℚ) / 3, if cF < cM then "M" else "Unknown")
  else ((cF : ℚ) / 3, if cM < cF then "F" else "Unknown")

/-- The derivation writes certainty then calc_gender into the record
    (sample_gender.py lines 92-93). -/
def deriveConsensus (d : PyDict) : PyDict :=
  dictInsert "calc_gender"
    (PyVal.str (consensusOf (countGender d "M") (countGender d "F")).2)
    (dictInsert "certainty"
      (PyVal.float (PyFloat.val (consensusOf (countGender d "M") (countGender d "F")).1)) d)

/-- The wild-type read-count key of the MSH2 record. -/
def wtKey : String := "MSH2_c.942+3_wt"

/-- Round a rational to the nearest integer, ties to even (Python round). -/
def roundHalfEven (q : ℚ) : ℤ :=
  let f := q.floor
  let r := q - (f : ℚ)
  if r < 1/2 then f
  else if (1 : ℚ)/2 < r then f + 1
  else if f % 2 = 0 then f else f + 1

/-- Python round(x, 2) scaled by 100: the integer n with round(x, 2) = n/100. -/
def round2Scaled (q : ℚ) : ℤ := roundHalfEven (q * 100)

/-- Python repr of the float n/100 (at most two decimals), as produced by
    f-string interpolation of the rounded frequency. -/
def fmtFloat2 (n : ℤ) : String :=
  let sign := if n < 0 then "-" else ""
  let a := n.natAbs
  let ip := a / 100
  let fp := a % 100
  if fp = 0 then sign ++ toString ip ++ ".0"
  else if fp % 10 = 0 then sign ++ toString ip ++ "." ++ toString (fp / 10)
  else if fp < 10 then sign ++ toString ip ++ ".0" ++ toString fp
  else sign ++ toString ip ++ "." ++ toString fp

/-- Python str() of a stored value, as interpolated into the f-string; the
    float arm never occurs in the embedded MSH2 code path. -/
def valRepr : PyVal → String
  | PyVal.str s => s
  | PyVal.int n => toString n
  | PyVal.float x =>
      match x with
      | PyFloat.nan => "nan"
      | PyFloat.inf b => if b then "-inf" else "inf"
      | PyFloat.val q => fmtFloat2 (roundHalfEven (q * 100))

/-- Python int(x) applied to a stored value. -/
def pyIntOf : PyVal → Except PyErr ℤ
  | PyVal.str s =>
      match pyInt? s with
      | some n => Except.ok n
      | none => Except.error PyErr.valueError
  | PyVal.int n => Except.ok n
  | PyVal.float x =>
      match x with
      | PyFloat.val q => Except.ok (if 0 ≤ q then q.floor else q.ceil)
      | _ => Except.error PyErr.valueError

/-- The formatted cell for one variant: frequency, percent sign, count. -/
def msh2Out (freqS : ℤ) (counts : PyVal) : String :=
  fmtFloat2 freqS ++ "% (" ++ valRepr counts ++ ")"

/-- targeted_MSH2.parse_file lines 121-136: the frequency loop over the keys
    of the record in insertion order, mutating the record in place.  The
    evaluation order of the source line is kept: int(counts), the wild-type
    lookup, int of the wild-type value, int(counts) again, then the
    division, whose zero denominator raises ZeroDivisionError.  The
    threshold comparison has textually identical arms, as in the source. -/
def msh2FreqLoop (cfg : ℤ) : List String → PyDict → Except PyErr PyDict
  | [], d => Except.ok d
  | k :: ks, d =>
      match dictGet? k d with
      | none => Except.error PyErr.keyError
      | some counts =>
          if k ≠ wtKey then
            match pyIntOf counts with
            | Except.error e => Except.error e
            | Except.ok c1 =>
                match dictGet? wtKey d with
                | none => Except.error PyErr.keyError
                | some wv =>
                    match pyIntOf wv with
                    | Except.error e => Except.error e
                    | Except.ok w =>
                        match pyIntOf counts with
                        | Except.error e => Except.error e
                        | Except.ok c2 =>
                            if w + c2 = 0 then Except.error PyErr.zeroDivisionError
                            else
                              let freqS := round2Scaled ((c1 : ℚ) / ((w + c2 : ℤ) : ℚ) * 100)
                              let out :=
                                if (cfg : ℚ) ≤ (freqS : ℚ) / 100 then msh2Out freqS counts
                                else msh2Out freqS counts
                              msh2FreqLoop cfg ks (dictInsert k (PyVal.str out) d)
          else
            match pyIntOf counts with
            | Except.error e => Except.error e
            | Except.ok w => msh2FreqLoop cfg ks (dictInsert k (PyVal.int w) d)

/-- targeted_MSH2.parse_file lines 115-119: the extracted flat mapping from
    columns 2-6 of lines 3 and 4 (1-indexed), space-separated. -/
def msh2Extract (lines : List String) : PyDict :=
  buildDict ((cols26 ' ' (lines.getD 2 "")).zip (cols26 ' ' (lines.getD 3 ""))) PyVal.str

/-- targeted_MSH2.parse_file: the guard on line 109 returns an empty mapping
    below 3 lines; reading lines[3] raises IndexError when exactly 3 lines
    are present; otherwise extraction followed by the frequency loop over
    the extracted keys in insertion order. -/
def msh2ParseFile (lines : List String) (cfg : ℤ) : Except PyErr PyDict :=
  if lines.length < 3 then Except.ok []
  else if lines.length < 4 then Except.error PyErr.indexError
  else msh2FreqLoop cfg ((msh2Extract lines).map Prod.fst) (msh2Extract lines)

theorem countGender_le (d : PyDict) (g : String) : countGender d g ≤ 3 := by
  simpa [genderMethods] using
    List.length_filter_le (fun m => dictGet? m d = some (PyVal.str g)) genderMethods

theorem countGender_insert (k : String) (v : PyVal) (d : PyDict) (g : String)
    (h1 : k ≠ "gender_xy") (h2 : k ≠ "gender_hetx") (h3 : k ≠ "gender_sry") :
    countGender (dictInsert k v d) g = countGender d g := by
  have e1 : dictGet? "gender_xy" (dictInsert k v d) = dictGet? "gender_xy" d := by
    rw [dictGet?_insert, if_neg h1]
  have e2 : dictGet? "gender_hetx" (dictInsert k v d) = dictGet? "gender_hetx" d := by
    rw [dictGet?_insert, if_neg h2]
  have e3 : dictGet? "gender_sry" (dictInsert k v d) = dictGet? "gender_sry" d := by
    rw [dictGet?_insert, if_neg h3]
  simp [countGender, genderMethods, List.filter_cons, e1, e2, e3]

theorem deriveConsensus_gets (d : PyDict) :
    dictGet? "certainty" (deriveConsensus d)
      = some (PyVal.float (PyFloat.val (consensusOf (countGender d "M") (countGender d "F")).1)) ∧
    dictGet? "calc_gender" (deriveConsensus d)
      = some (PyVal.str (consensusOf (countGender d "M") (countGender d "F")).2) := by
  unfold deriveConsensus
  constructor
  · rw [dictGet?_insert, if_neg (by decide), dictGet?_insert, if_pos rfl]
  · rw [dictGet?_insert, if_pos rfl]

theorem consensusOf_spec (cM cF : ℕ) (hM : cM ≤ 3) (hF : cF ≤ 3) :
    ((consensusOf cM cF).1 = 0 ∨ (consensusOf cM cF).1 = 1/3 ∨
      (consensusOf cM cF).1 = 2/3 ∨ (consensusOf cM cF).1 = 1) ∧
    ((consensusOf cM cF).2 = "M" ∨ (consensusOf cM cF).2 = "F" ∨
      (consensusOf cM cF).2 = "Unknown") ∧
    ((consensusOf cM cF).2 = "Unknown" ↔ cM = cF) ∧
    (cF ≤ cM → (consensusOf cM cF).1 = (cM : ℚ) / 3 ∧
      ((consensusOf cM cF).2 = "M" ↔ cF < cM)) ∧
    (cM < cF → (consensusOf cM cF).1 = (cF : ℚ) / 3 ∧ (consensusOf cM cF).2 = "F") := by
  interval_cases cM <;> interval_cases cF <;> norm_num [consensusOf] <;> decide

/-- C1: after consensus derivation, certainty is one of 0, 1/3, 2/3, 1 and
    calc_gender is one of M, F, Unknown; calc_gender is Unknown exactly when
    the M-count equals the F-count over the three method fields; when the
    M-count is at least the F-count the certainty is M-count/3 and the call
    is M exactly for a strict majority, otherwise the certainty is F-count/3
    and the call is F. -/
theorem sg_consensus_properties (d : PyDict) :
    ∃ p g,
      dictGet? "certainty" (deriveConsensus d) = some (PyVal.float (PyFloat.val p)) ∧
      dictGet? "calc_gender" (deriveConsensus d) = some (PyVal.str g) ∧
      (p = 0 ∨ p = 1/3 ∨ p = 2/3 ∨ p = 1) ∧
      (g = "M" ∨ g = "F" ∨ g = "Unknown") ∧
      (g = "Unknown" ↔ countGender d "M" = countGender d "F") ∧
      (countGender d "F" ≤ countGender d "M" →
        p = (countGender d "M" : ℚ) / 3 ∧ (g = "M" ↔ countGender d "F" < countGender d "M")) ∧
      (countGender d "M" < countGender d "F" →
        p = (countGender d "F" : ℚ) / 3 ∧ g = "F") := by
  obtain ⟨a, b, c, e, f⟩ :=
    consensusOf_spec (countGender d "M") (countGender d "F")
      (countGender_le d "M") (countGender_le d "F")
  exact ⟨_, _, (deriveConsensus_gets d).1, (deriveConsensus_gets d).2, a, b, c, e, f⟩

/-- C7: the two derived fields are recomputed solely from the three raw
    method fields — rerunning the derivation on an already-derived record,
    or on a record with arbitrary preexisting certainty and calc_gender
    values, yields the same derived values as running it on the record
    alone. -/
theorem sg_consensus_idempotent (d : PyDict) (v1 v2 : PyVal) :
    (dictGet? "certainty" (deriveConsensus (deriveConsensus d)) =
        dictGet? "certainty" (deriveConsensus d) ∧
      dictGet? "calc_gender" (deriveConsensus (deriveConsensus d)) =
        dictGet? "calc_gender" (deriveConsensus d)) ∧
    (dictGet? "certainty"
        (deriveConsensus (dictInsert "calc_gender" v2 (dictInsert "certainty" v1 d))) =
        dictGet? "certainty" (deriveConsensus d) ∧
      dictGet? "calc_gender"
        (deriveConsensus (dictInsert "calc_gender" v2 (dictInsert "certainty" v1 d))) =
        dictGet? "calc_gender" (deriveConsensus d)) := by
  have hins : ∀ (w1 w2 : PyVal) (g : String),
      countGender (dictInsert "calc_gender" w2 (dictInsert "certainty" w1 d)) g
        = countGender d g := by
    intro w1 w2 g
    rw [countGender_insert _ _ _ _ (by decide) (by decide) (by decide),
        countGender_insert _ _ _ _ (by decide) (by decide) (by decide)]
  have key : ∀ dd : PyDict, countGender dd "M" = countGender d "M" →
      countGender dd "F" = countGender d "F" →
      dictGet? "certainty" (deriveConsensus dd) = dictGet? "certainty" (deriveConsensus d) ∧
      dictGet? "calc_gender" (deriveConsensus dd) =
        dictGet? "calc_gender" (deriveConsensus d) := by
    intro dd h1 h2
    constructor
    · rw [(deriveConsensus_gets dd).1, (deriveConsensus_gets d).1, h1, h2]
    · rw [(deriveConsensus_gets dd).2, (deriveConsensus_gets d).2, h1, h2]
  constructor
  · exact key _ (by unfold deriveConsensus; exact hins _ _ _)
      (by unfold deriveConsensus; exact hins _ _ _)
  · exact key _ (hins _ _ _) (hins _ _ _)

theorem msh2FreqLoop_cfg (cfg1 cfg2 : ℤ) : ∀ (ks : List String) (d : PyDict),
    msh2FreqLoop cfg1 ks d = msh2FreqLoop cfg2 ks d := by
  intro ks
  induction ks with
  | nil => intro d; rfl
  | cons k ks ih =>
      intro d
      simp only [msh2FreqLoop, ite_self]
      cases dictGet? k d with
      | none => rfl
      | some counts =>
          dsimp only
          by_cases hk : k = wtKey
          · rw [if_neg (not_not_intro hk), if_neg (not_not_intro hk)]
            cases pyIntOf counts with
            | error e => rfl
            | ok w => exact ih _
          · rw [if_pos hk, if_pos hk]
            cases pyIntOf counts with
            | error e => rfl
            | ok c =>
                dsimp only
                cases dictGet? wtKey d with
                | none => rfl
                | some wv =>
                    dsimp only
                    cases pyIntOf wv with
                    | error e => rfl
                    | ok w =>
                        dsimp only
                        by_cases hz : w + c = 0
                        · rw [if_pos hz, if_pos hz]
                        · rw [if_neg hz, if_neg hz]
                          exact ih _

/-- C6: the parsed MSH2 record does not depend on the sanger_threshold
    configuration value — the threshold branch has identical arms, so any
    two thresholds produce the same result on every input. -/
theorem msh2_threshold_independent (lines : List String) (cfg1 cfg2 : ℤ) :
    msh2ParseFile lines cfg1 = msh2ParseFile lines cfg2 := by
  unfold msh2ParseFile
  by_cases h3 : lines.length < 3
  · simp [h3]
  · by_cases h4 : lines.length < 4
    · simp [h3, h4]
    · simp [h3, h4, msh2FreqLoop_cfg cfg1 cfg2]

/-- C10: the sex-prediction parser is not total on inputs with at least two
    lines: whenever the second line strips and splits to fewer than two
    tab-separated fields, the unconditional read of the first extracted
    value raises an index error. -/
theorem sg_parse_short_row (lines : List String) (h2 : 2 ≤ lines.length)
    (hrow : (pySplit '\t' (pyStrip (lines.getD 1 ""))).length < 2) :
    sgParseFile lines = Except.error PyErr.indexError := by
  have hv : cols26 '\t' (lines.getD 1 "") = [] := by
    unfold cols26 slice16
    rw [List.drop_eq_nil_of_le (by omega), List.take_nil]
  unfold sgParseFile
  rw [if_neg (by omega), hv]

theorem sg_parse_short_row_witness :
    2 ≤ (["a\tb", "c"] : List String).length ∧
    sgParseFile ["a\tb", "c"] = Except.error PyErr.indexError :=
  ⟨by decide, sg_parse_short_row _ (by decide) (by decide)⟩

theorem sg_consensus_properties_witness :
    ∃ p g,
      dictGet? "certainty" (deriveConsensus [("gender_xy", PyVal.str "M")])
        = some (PyVal.float (PyFloat.val p)) ∧
      dictGet? "calc_gender" (deriveConsensus [("gender_xy", PyVal.str "M")])
        = some (PyVal.str g) ∧
      (p = 0 ∨ p = 1/3 ∨ p = 2/3 ∨ p = 1) ∧
      (g = "M" ∨ g = "F" ∨ g = "Unknown") ∧
      (g = "Unknown" ↔ countGender [("gender_xy", PyVal.str "M")] "M"
        = countGender [("gender_xy", PyVal.str "M")] "F") ∧
      (countGender [("gender_xy", PyVal.str "M")] "F"
          ≤ countGender [("gender_xy", PyVal.str "M")] "M" →
        p = (countGender [("gender_xy", PyVal.str "M")] "M" : ℚ) / 3 ∧
        (g = "M" ↔ countGender [("gender_xy", PyVal.str "M")] "F"
          < countGender [("gender_xy", PyVal.str "M")] "M")) ∧
      (countGender [("gender_xy", PyVal.str "M")] "M"
          < countGender [("gender_xy", PyVal.str "M")] "F" →
        p = (countGender [("gender_xy", PyVal.str "M")] "F" : ℚ) / 3 ∧ g = "F") :=
  sg_consensus_properties [("gender_xy", PyVal.str "M")]

theorem dictGet?_mem_keys {k : String} {v : PyVal} :
    ∀ {d : PyDict}, dictGet? k d = some v → k ∈ d.map Prod.fst := by
  intro d
  induction d with
  | nil => intro h; simp [dictGet?] at h
  | cons p rest ih =>
      obtain ⟨k0, v0⟩ := p
      intro h
      by_cases h0 : k0 = k
      · simp [h0]
      · simp only [dictGet?, if_neg h0] at h
        exact List.mem_cons_of_mem _ (ih h)

theorem get_of_mem_keys {k : String} :
    ∀ {d : PyDict}, k ∈ d.map Prod.fst → ∃ v, dictGet? k d = some v := by
  intro d
  induction d with
  | nil => intro h; simp at h
  | cons p rest ih =>
      obtain ⟨k0, v0⟩ := p
      intro h
      by_cases h0 : k0 = k
      · exact ⟨v0, by simp [dictGet?, h0]⟩
      · have : k ∈ rest.map Prod.fst := by
          rw [List.map_cons] at h
          rcases List.mem_cons.mp h with h | h
          · exact absurd h.symm h0
          · exact h
        obtain ⟨v, hv⟩ := ih this
        exact ⟨v, by simp [dictGet?, h0, hv]⟩

theorem keys_dictInsert (k : String) (v : PyVal) (d : PyDict) :
    (dictInsert k v d).map Prod.fst =
      if k ∈ d.map Prod.fst then d.map Prod.fst else d.map Prod.fst ++ [k] := by
  induction d with
  | nil => simp [dictInsert]
  | cons p rest ih =>
      obtain ⟨k0, v0⟩ := p
      by_cases h0 : k0 = k
      · subst h0; simp [dictInsert]
      · have hne : ¬ k = k0 := fun h => h0 h.symm
        by_cases hm : k ∈ rest.map Prod.fst <;>
          simp [dictInsert, h0, ih, hne, hm]

theorem keys_nodup_dictInsert (k : String) (v : PyVal) (d : PyDict)
    (h : (d.map Prod.fst).Nodup) : ((dictInsert k v d).map Prod.fst).Nodup := by
  rw [keys_dictInsert]
  by_cases hm : k ∈ d.map Prod.fst
  · simpa [hm] using h
  · simp [hm, List.nodup_append, h]

theorem keys_nodup_buildDict (pairs : List (String × String)) (f : String → PyVal) :
    ((buildDict pairs f).map Prod.fst).Nodup := by
  have step : ∀ (ps : List (String × String)) (acc : PyDict), (acc.map Prod.fst).Nodup →
      ((ps.foldl (fun a kv => dictInsert kv.1 (f kv.2) a) acc).map Prod.fst).Nodup := by
    intro ps
    induction ps with
    | nil => intro acc h; exact h
    | cons p ps ih => intro acc h; exact ih _ (keys_nodup_dictInsert _ _ _ h)
  exact step pairs [] (by simp)

theorem msh2_three_lines_cex :
    3 ≤ (["a", "b", "c"] : List String).length ∧
    msh2ParseFile ["a", "b", "c"] 28 = Except.error PyErr.indexError :=
  ⟨by decide, by decide⟩

/-- C3 (amended): with fewer than 3 lines the MSH2 parser returns an empty
    mapping (recoverable); with exactly 3 lines reading the value line
    raises an index error; with at least 4 lines the extraction of columns
    2-6 from lines 3 and 4 succeeds, zipped into a flat string-keyed
    mapping handed to the frequency loop. -/
theorem msh2_parse_stages (lines : List String) (cfg : ℤ) :
    (lines.length < 3 → msh2ParseFile lines cfg = Except.ok []) ∧
    (lines.length = 3 → msh2ParseFile lines cfg = Except.error PyErr.indexError) ∧
    (4 ≤ lines.length →
      msh2ParseFile lines cfg =
        msh2FreqLoop cfg ((msh2Extract lines).map Prod.fst) (msh2Extract lines) ∧
      msh2Extract lines =
        buildDict ((cols26 ' ' (lines.getD 2 "")).zip (cols26 ' ' (lines.getD 3 "")))
          PyVal.str) := by
  refine ⟨fun h => ?_, fun h => ?_, fun h => ⟨?_, rfl⟩⟩
  · unfold msh2ParseFile; rw [if_pos h]
  · unfold msh2ParseFile; rw [if_neg (by omega), if_pos (by omega)]
  · unfold msh2ParseFile; rw [if_neg (by omega), if_neg (by omega)]

theorem msh2_parse_stages_witness :
    msh2ParseFile ["a"] 28 = Except.ok [] ∧
    msh2ParseFile ["a", "b", "c"] 28 = Except.error PyErr.indexError ∧
    msh2ParseFile ["p", "q", "x MSH2_c.942+3_wt MSH2_c.942+3A>T", "x 4 1"] 28 =
      msh2FreqLoop 28
        ((msh2Extract ["p", "q", "x MSH2_c.942+3_wt MSH2_c.942+3A>T", "x 4 1"]).map Prod.fst)
        (msh2Extract ["p", "q", "x MSH2_c.942+3_wt MSH2_c.942+3A>T", "x 4 1"]) :=
  ⟨(msh2_parse_stages ["a"] 28).1 (by decide),
   (msh2_parse_stages ["a", "b", "c"] 28).2.1 (by decide),
   ((msh2_parse_stages ["p", "q", "x MSH2_c.942+3_wt MSH2_c.942+3A>T", "x 4 1"] 28).2.2
      (by decide)).1⟩

theorem mem_setHead {x y : String} : ∀ {l : List String}, x ∈ setHead y l → x = y ∨ x ∈ l := by
  intro l h
  cases l with
  | nil => simp [setHead] at h
  | cons a t =>
      rcases (by simpa [setHead] using h : x = y ∨ x ∈ t) with h | h
      · exact Or.inl h
      · exact Or.inr (List.mem_cons_of_mem _ h)

theorem head?_setHead {y : String} {l : List String} (h : l ≠ []) :
    (setHead y l).head? = some y := by
  cases l with
  | nil => exact absurd rfl h
  | cons a t => rfl

/-- C9: if one of the three well-known source column names occurs anywhere
    in the header list (and the other two do not), the header at position 0
    is replaced by the corresponding internal key, with no search for the
    matching column; on the documented example header restricted to columns
    2-6 parsing does not crash and the first retained header becomes
    gender_xy. -/
theorem sg_header_rename (hs : List String) :
    ("reads_chry" ∈ hs → "het_fraction" ∉ hs → "coverage_sry" ∉ hs →
      (renameHeaders hs).head? = some "gender_xy") ∧
    ("reads_chry" ∉ hs → "het_fraction" ∈ hs → "coverage_sry" ∉ hs →
      (renameHeaders hs).head? = some "gender_hetx") ∧
    ("reads_chry" ∉ hs → "het_fraction" ∉ hs → "coverage_sry" ∈ hs →
      (renameHeaders hs).head? = some "gender_sry") ∧
    sgParseFile ["s_name\treads_chry\tother\tother2\tother3\tother4", "s\tM\t1\t2\t3\t4"] =
      Except.ok [("gender_xy", PyVal.str "M"), ("other", PyVal.float (PyFloat.val 1)),
        ("other2", PyVal.float (PyFloat.val 2)), ("other3", PyVal.float (PyFloat.val 3)),
        ("other4", PyVal.float (PyFloat.val 4))] := by
  refine ⟨fun h1 h2 h3 => ?_, fun h1 h2 h3 => ?_, fun h1 h2 h3 => ?_,
    by with_unfolding_all decide⟩
  · have hne : hs ≠ [] := by rintro rfl; simp at h1
    unfold renameHeaders paramMap
    simp only [List.foldl]
    rw [if_pos h1]
    have hh2 : "het_fraction" ∉ setHead "gender_xy" hs := by
      intro hmem
      rcases mem_setHead hmem with h | h
      · exact absurd h (by decide)
      · exact h2 h
    rw [if_neg hh2]
    have hh3 : "coverage_sry" ∉ setHead "gender_xy" hs := by
      intro hmem
      rcases mem_setHead hmem with h | h
      · exact absurd h (by decide)
      · exact h3 h
    rw [if_neg hh3]
    exact head?_setHead hne
  · have hne : hs ≠ [] := by rintro rfl; simp at h2
    unfold renameHeaders paramMap
    simp only [List.foldl]
    rw [if_neg h1, if_pos h2]
    have hh3 : "coverage_sry" ∉ setHead "gender_hetx" hs := by
      intro hmem
      rcases mem_setHead hmem with h | h
      · exact absurd h (by decide)
      · exact h3 h
    rw [if_neg hh3]
    exact head?_setHead hne
  · have hne : hs ≠ [] := by rintro rfl; simp at h3
    unfold renameHeaders paramMap
    simp only [List.foldl]
    rw [if_neg h1, if_neg h2, if_pos h3]
    exact head?_setHead hne

theorem sg_header_rename_witness :
    (renameHeaders ["x", "reads_chry"]).head? = some "gender_xy" ∧
    (renameHeaders ["het_fraction", "y"]).head? = some "gender_hetx" ∧
    (renameHeaders ["z", "coverage_sry"]).head? = some "gender_sry" :=
  ⟨(sg_header_rename ["x", "reads_chry"]).1 (by decide) (by decide) (by decide),
   (sg_header_rename ["het_fraction", "y"]).2.1 (by decide) (by decide) (by decide),
   (sg_header_rename ["z", "coverage_sry"]).2.2.1 (by decide) (by decide) (by decide)⟩

/-- C8: when the first two lines each strip and split to at least two
    tab-separated fields, the parser succeeds and produces the zip of the
    renamed headers with the canonicalized values under lenient coercion;
    canonicalization sends case-insensitive male/female to M/F and leaves
    everything else unchanged; coercion stores the parsed float when the
    parse succeeds and is not nan, the not-available sentinel on nan, and
    the raw string when the parse fails — never an error. -/
theorem sg_parse_lenient (lines : List String)
    (h2 : 2 ≤ lines.length)
    (_hh : 2 ≤ (pySplit '\t' (pyStrip (lines.getD 0 ""))).length)
    (hv : 2 ≤ (pySplit '\t' (pyStrip (lines.getD 1 ""))).length) :
    sgParseFile lines = Except.ok (buildDict
        ((renameHeaders (cols26 '\t' (lines.getD 0 ""))).zip
          (canonValues (cols26 '\t' (lines.getD 1 "")))) coerceVal) ∧
    (∀ v, strLower v = "male" → canonSex v = "M") ∧
    (∀ v, strLower v = "female" → canonSex v = "F") ∧
    (∀ v, strLower v ≠ "male" → strLower v ≠ "female" → canonSex v = v) ∧
    (∀ v x, pyFloat? v = some x → x ≠ PyFloat.nan → coerceVal v = PyVal.float x) ∧
    (∀ v, pyFloat? v = some PyFloat.nan → coerceVal v = PyVal.str "N/A") ∧
    (∀ v, pyFloat? v = none → coerceVal v = PyVal.str v) := by
  refine ⟨?_, fun v hm => by simp [canonSex, hm], fun v hm => by simp [canonSex, hm],
    fun v hm1 hm2 => by simp [canonSex, hm1, hm2],
    fun v x h hx => ?_, fun v h => by simp [coerceVal, h], fun v h => by simp [coerceVal, h]⟩
  · obtain ⟨v0, vt, hcols⟩ : ∃ v0 vt, cols26 '\t' (lines.getD 1 "") = v0 :: vt := by
      have hlen : 1 ≤ (cols26 '\t' (lines.getD 1 "")).length := by
        unfold cols26 slice16
        rw [List.length_take, List.length_drop]
        omega
      cases hC : cols26 '\t' (lines.getD 1 "") with
      | nil => rw [hC] at hlen; simp at hlen
      | cons a t => exact ⟨a, t, rfl⟩
    unfold sgParseFile
    rw [if_neg (by omega), hcols]
  · cases x with
    | nan => exact absurd rfl hx
    | inf b => simp [coerceVal, h]
    | val q => simp [coerceVal, h]

theorem sg_parse_lenient_witness :
    sgParseFile ["id\ta\tb", "s\tMale\t2"] = Except.ok (buildDict
        ((renameHeaders (cols26 '\t' "id\ta\tb")).zip
          (canonValues (cols26 '\t' "s\tMale\t2"))) coerceVal) :=
  (sg_parse_lenient ["id\ta\tb", "s\tMale\t2"] (by decide) (by decide) (by decide)).1

theorem pyIntOf_str_some {s : String} {n : ℤ} (h : pyInt? s = some n) :
    pyIntOf (PyVal.str s) = Except.ok n := by
  simp [pyIntOf, h]

theorem pyIntOf_str_none {s : String} (h : pyInt? s = none) :
    pyIntOf (PyVal.str s) = Except.error PyErr.valueError := by
  simp [pyIntOf, h]

theorem msh2FreqLoop_cons_wt {cfg : ℤ} {ks : List String} {d : PyDict} {vw : PyVal} {w : ℤ}
    (hget : dictGet? wtKey d = some vw) (hwv : pyIntOf vw = Except.ok w) :
    msh2FreqLoop cfg (wtKey :: ks) d =
      msh2FreqLoop cfg ks (dictInsert wtKey (PyVal.int w) d) := by
  simp only [msh2FreqLoop, hget]
  rw [if_neg (not_not_intro rfl)]
  simp only [hwv]

theorem msh2FreqLoop_cons_var {cfg : ℤ} {k : String} {ks : List String} {d : PyDict}
    {counts vw : PyVal} {c w : ℤ}
    (hk : k ≠ wtKey) (hget : dictGet? k d = some counts) (hc : pyIntOf counts = Except.ok c)
    (hw : dictGet? wtKey d = some vw) (hwv : pyIntOf vw = Except.ok w) (hnz : w + c ≠ 0) :
    msh2FreqLoop cfg (k :: ks) d = msh2FreqLoop cfg ks
      (dictInsert k (PyVal.str (msh2Out (round2Scaled ((c : ℚ) / ((w + c : ℤ) : ℚ) * 100))
        counts)) d) := by
  simp only [msh2FreqLoop, hget]
  rw [if_pos hk]
  simp only [hc, hw, hwv]
  rw [if_neg hnz]
  simp only [ite_self]

theorem msh2FreqLoop_cons_cases (cfg : ℤ) (k0 : String) (ks : List String) (d : PyDict) :
    (∃ e, msh2FreqLoop cfg (k0 :: ks) d = Except.error e) ∨
    (∃ d1 counts c, dictGet? k0 d = some counts ∧ pyIntOf counts = Except.ok c ∧
      msh2FreqLoop cfg (k0 :: ks) d = msh2FreqLoop cfg ks d1 ∧
      (∀ kq, kq ≠ k0 → dictGet? kq d1 = dictGet? kq d)) := by
  rcases hget : dictGet? k0 d with _ | counts
  · exact Or.inl ⟨PyErr.keyError, by simp [msh2FreqLoop, hget]⟩
  · by_cases hk0 : k0 = wtKey
    · subst hk0
      rcases hio : pyIntOf counts with e | w
      · refine Or.inl ⟨e, ?_⟩
        simp only [msh2FreqLoop, hget]
        rw [if_neg (not_not_intro rfl)]
        simp [hio]
      · exact Or.inr ⟨dictInsert wtKey (PyVal.int w) d, counts, w, rfl, hio,
          msh2FreqLoop_cons_wt hget hio,
          fun kq hq => by rw [dictGet?_insert, if_neg (fun hh => hq hh.symm)]⟩
    · rcases hio : pyIntOf counts with e | c
      · refine Or.inl ⟨e, ?_⟩
        simp only [msh2FreqLoop, hget]
        rw [if_pos hk0]
        simp [hio]
      · rcases hw : dictGet? wtKey d with _ | wv
        · refine Or.inl ⟨PyErr.keyError, ?_⟩
          simp only [msh2FreqLoop, hget]
          rw [if_pos hk0]
          simp [hio, hw]
        · rcases hwv : pyIntOf wv with e | w
          · refine Or.inl ⟨e, ?_⟩
            simp only [msh2FreqLoop, hget]
            rw [if_pos hk0]
            simp [hio, hw, hwv]
          · by_cases hz : w + c = 0
            · refine Or.inl ⟨PyErr.zeroDivisionError, ?_⟩
              simp only [msh2FreqLoop, hget]
              rw [if_pos hk0]
              simp [hio, hw, hwv, hz]
            · exact Or.inr ⟨_, counts, c, rfl, hio,
                msh2FreqLoop_cons_var hk0 hget hio hw hwv hz,
                fun kq hq => by rw [dictGet?_insert, if_neg (fun hh => hq hh.symm)]⟩

theorem msh2FreqLoop_bad (cfg : ℤ) : ∀ (ks : List String) (d : PyDict), ks.Nodup →
    (∃ k ∈ ks, ∃ s, dictGet? k d = some (PyVal.str s) ∧ pyInt? s = none) →
    ∃ e, msh2FreqLoop cfg ks d = Except.error e := by
  intro ks
  induction ks with
  | nil =>
      intro d _ h
      obtain ⟨k, hk, _⟩ := h
      simp at hk
  | cons k0 ks ih =>
      intro d hnd hbad
      rcases msh2FreqLoop_cons_cases cfg k0 ks d with ⟨e, he⟩ |
        ⟨d1, counts, c, hget0, hio0, hstep, hrest⟩
      · exact ⟨e, he⟩
      · rw [hstep]
        apply ih _ hnd.of_cons
        obtain ⟨kb, hkb, s, hgv, hs⟩ := hbad
        have hkbks : kb ∈ ks := by
          rcases List.mem_cons.mp hkb with h | h
          · subst h
            rw [hget0] at hgv
            have hcs : counts = PyVal.str s := Option.some.inj hgv
            rw [hcs, pyIntOf_str_none hs] at hio0
            exact absurd hio0 (by simp)
          · exact h
        have hkbk0 : kb ≠ k0 := fun hh => (List.nodup_cons.mp hnd).1 (hh ▸ hkbks)
        exact ⟨kb, hkbks, s, by rw [hrest kb hkbk0]; exact hgv, hs⟩

theorem msh2FreqLoop_no_wt (cfg : ℤ) (k0 : String) (v0 : PyVal) (rest : PyDict)
    (hno : dictGet? wtKey ((k0, v0) :: rest) = none) :
    ∃ e, msh2FreqLoop cfg (((k0, v0) :: rest).map Prod.fst) ((k0, v0) :: rest) =
      Except.error e := by
  have hk0 : k0 ≠ wtKey := by
    intro h
    simp [dictGet?, h] at hno
  have hget0 : dictGet? k0 ((k0, v0) :: rest) = some v0 := by simp [dictGet?]
  rcases hio : pyIntOf v0 with e | c
  · refine ⟨e, ?_⟩
    simp only [List.map_cons, msh2FreqLoop, hget0]
    rw [if_pos hk0]
    simp [hio]
  · refine ⟨PyErr.keyError, ?_⟩
    simp only [List.map_cons, msh2FreqLoop, hget0]
    rw [if_pos hk0]
    simp [hio, hno]

theorem msh2FreqLoop_zero (cfg : ℤ) : ∀ (ks : List String) (d : PyDict), ks.Nodup →
    (∃ vw, dictGet? wtKey d = some vw ∧ pyIntOf vw = Except.ok 0) →
    (∀ k ∈ ks, ∃ v n, dictGet? k d = some v ∧ pyIntOf v = Except.ok n) →
    (∃ k ∈ ks, k ≠ wtKey ∧ ∃ v, dictGet? k d = some v ∧ pyIntOf v = Except.ok 0) →
    msh2FreqLoop cfg ks d = Except.error PyErr.zeroDivisionError := by
  intro ks
  induction ks with
  | nil =>
      intro d _ _ _ hbad
      obtain ⟨k, hk, _⟩ := hbad
      simp at hk
  | cons k0 ks ih =>
      intro d hnd hwt hall hbad
      obtain ⟨vw, hw, hwv⟩ := hwt
      obtain ⟨v0, n0, hget0, hio0⟩ := hall k0 (List.mem_cons_self _ _)
      by_cases hk0 : k0 = wtKey
      · subst hk0
        rw [msh2FreqLoop_cons_wt hw hwv]
        have hwtnotks : wtKey ∉ ks := (List.nodup_cons.mp hnd).1
        apply ih _ hnd.of_cons
        · exact ⟨PyVal.int 0, by rw [dictGet?_insert, if_pos rfl], rfl⟩
        · intro k hk
          have hkne : k ≠ wtKey := fun hh => hwtnotks (hh ▸ hk)
          obtain ⟨v, n, hgv, hiv⟩ := hall k (List.mem_cons_of_mem _ hk)
          exact ⟨v, n, by rw [dictGet?_insert, if_neg (fun hh => hkne hh.symm)]; exact hgv, hiv⟩
        · obtain ⟨kb, hkb, hkbne, v, hgv, hiv⟩ := hbad
          have hkbks : kb ∈ ks := by
            rcases List.mem_cons.mp hkb with h | h
            · exact absurd h hkbne
            · exact h
          exact ⟨kb, hkbks, hkbne, v,
            by rw [dictGet?_insert, if_neg (fun hh => hkbne hh.symm)]; exact hgv, hiv⟩
      · have hk0ks : k0 ∉ ks := (List.nodup_cons.mp hnd).1
        by_cases hn0 : n0 = 0
        · simp only [msh2FreqLoop, hget0]
          rw [if_pos hk0]
          simp only [hio0, hw, hwv]
          rw [if_pos (by omega)]
        · rw [msh2FreqLoop_cons_var hk0 hget0 hio0 hw hwv (by omega)]
          apply ih _ hnd.of_cons
          · exact ⟨vw, by rw [dictGet?_insert, if_neg hk0]; exact hw, hwv⟩
          · intro k hk
            have hkk0 : k ≠ k0 := fun hh => hk0ks (hh ▸ hk)
            obtain ⟨v, n, hgv, hiv⟩ := hall k (List.mem_cons_of_mem _ hk)
            exact ⟨v, n, by rw [dictGet?_insert, if_neg (fun hh => hkk0 hh.symm)]; exact hgv, hiv⟩
          · obtain ⟨kb, hkb, hkbne, v, hgv, hiv⟩ := hbad
            have hkbks : kb ∈ ks := by
              rcases List.mem_cons.mp hkb with h | h
              · subst h
                rw [hget0] at hgv
                have hvv : v = v0 := (Option.some.inj hgv).symm
                rw [hvv, hio0] at hiv
                exact absurd (Except.ok.inj hiv) hn0
              · exact h
            have hkbk0 : kb ≠ k0 := fun hh => hk0ks (hh ▸ hkbks)
            exact ⟨kb, hkbks, hkbne, v,
              by rw [dictGet?_insert, if_neg (fun hh => hkbk0 hh.symm)]; exact hgv, hiv⟩

theorem msh2FreqLoop_ok (cfg : ℤ) (w : ℤ) : ∀ (ks : List String) (d : PyDict), ks.Nodup →
    (∃ vw, dictGet? wtKey d = some vw ∧ pyIntOf vw = Except.ok w) →
    (∀ k ∈ ks, k ≠ wtKey →
      ∃ s c, dictGet? k d = some (PyVal.str s) ∧ pyInt? s = some c ∧ w + c ≠ 0) →
    ∃ d2, msh2FreqLoop cfg ks d = Except.ok d2 ∧
      (∀ k ∈ ks, k ≠ wtKey → ∀ s c, dictGet? k d = some (PyVal.str s) → pyInt? s = some c →
        dictGet? k d2 = some (PyVal.str
          (msh2Out (round2Scaled ((c : ℚ) / ((w + c : ℤ) : ℚ) * 100)) (PyVal.str s)))) ∧
      (wtKey ∈ ks → dictGet? wtKey d2 = some (PyVal.int w)) ∧
      (∀ k, k ∉ ks → dictGet? k d2 = dictGet? k d) := by
  intro ks
  induction ks with
  | nil =>
      intro d _ _ _
      exact ⟨d, rfl, by simp, by simp, fun k _ => rfl⟩
  | cons k0 ks ih =>
      intro d hnd hwt hvar
      obtain ⟨vw, hw, hwv⟩ := hwt
      by_cases hk0 : k0 = wtKey
      · subst hk0
        rw [msh2FreqLoop_cons_wt hw hwv]
        have hwtnotks : wtKey ∉ ks := (List.nodup_cons.mp hnd).1
        have hwt1 : ∃ vw1, dictGet? wtKey (dictInsert wtKey (PyVal.int w) d) = some vw1 ∧
            pyIntOf vw1 = Except.ok w :=
          ⟨PyVal.int w, by rw [dictGet?_insert, if_pos rfl], rfl⟩
        have hvar1 : ∀ k ∈ ks, k ≠ wtKey →
            ∃ s c, dictGet? k (dictInsert wtKey (PyVal.int w) d) = some (PyVal.str s) ∧
              pyInt? s = some c ∧ w + c ≠ 0 := by
          intro k hk hkne
          obtain ⟨s, c, hg, hc, hnz⟩ := hvar k (List.mem_cons_of_mem _ hk) hkne
          exact ⟨s, c, by rw [dictGet?_insert, if_neg (fun hh => hkne hh.symm)]; exact hg,
            hc, hnz⟩
        obtain ⟨d2, hloop, hvals, hwt2, hout⟩ := ih _ hnd.of_cons hwt1 hvar1
        refine ⟨d2, hloop, ?_, ?_, ?_⟩
        · intro k hk hkne s c hg hc
          have hkks : k ∈ ks := by
            rcases List.mem_cons.mp hk with h | h
            · exact absurd h hkne
            · exact h
          exact hvals k hkks hkne s c
            (by rw [dictGet?_insert, if_neg (fun hh => hkne hh.symm)]; exact hg) hc
        · intro _
          rw [hout wtKey hwtnotks, dictGet?_insert, if_pos rfl]
        · intro k hk
          have hkk0 : k ≠ wtKey := fun hh => hk (hh ▸ List.mem_cons_self _ _)
          have hkks : k ∉ ks := fun hh => hk (List.mem_cons_of_mem _ hh)
          rw [hout k hkks, dictGet?_insert, if_neg (fun hh => hkk0 hh.symm)]
      · obtain ⟨s, c, hg, hc, hnz⟩ := hvar k0 (List.mem_cons_self _ _) hk0
        rw [msh2FreqLoop_cons_var hk0 hg (pyIntOf_str_some hc) hw hwv hnz]
        have hk0ks : k0 ∉ ks := (List.nodup_cons.mp hnd).1
        have hwt1 : ∃ vw1, dictGet? wtKey
            (dictInsert k0 (PyVal.str (msh2Out
              (round2Scaled ((c : ℚ) / ((w + c : ℤ) : ℚ) * 100)) (PyVal.str s))) d)
              = some vw1 ∧ pyIntOf vw1 = Except.ok w :=
          ⟨vw, by rw [dictGet?_insert, if_neg hk0]; exact hw, hwv⟩
        have hvar1 : ∀ k ∈ ks, k ≠ wtKey →
            ∃ s1 c1, dictGet? k
              (dictInsert k0 (PyVal.str (msh2Out
                (round2Scaled ((c : ℚ) / ((w + c : ℤ) : ℚ) * 100)) (PyVal.str s))) d)
                = some (PyVal.str s1) ∧ pyInt? s1 = some c1 ∧ w + c1 ≠ 0 := by
          intro k hk hkne
          have hkk0 : k ≠ k0 := fun hh => hk0ks (hh ▸ hk)
          obtain ⟨s1, c1, hg1, hc1, hnz1⟩ := hvar k (List.mem_cons_of_mem _ hk) hkne
          exact ⟨s1, c1, by rw [dictGet?_insert, if_neg (fun hh => hkk0 hh.symm)]; exact hg1,
            hc1, hnz1⟩
        obtain ⟨d2, hloop, hvals, hwt2, hout⟩ := ih _ hnd.of_cons hwt1 hvar1
        refine ⟨d2, hloop, ?_, ?_, ?_⟩
        · intro k hk hkne s2 c2 hg2 hc2
          rcases List.mem_cons.mp hk with h | h
          · subst h
            have hs2 : s = s2 := by
              have := Option.some.inj (hg.symm.trans hg2)
              exact PyVal.str.inj this
            have hc2c : c = c2 := by
              rw [hs2] at hc
              exact Option.some.inj (hc.symm.trans hc2)
            rw [hout k hk0ks, dictGet?_insert, if_pos rfl, hs2, hc2c]
          · have hkk0 : k ≠ k0 := fun hh => hk0ks (hh ▸ h)
            exact hvals k h hkne s2 c2
              (by rw [dictGet?_insert, if_neg (fun hh => hkk0 hh.symm)]; exact hg2) hc2
        · intro hwtm
          have : wtKey ∈ ks := by
            rcases List.mem_cons.mp hwtm with h | h
            · exact absurd h.symm hk0
            · exact h
          exact hwt2 this
        · intro k hk
          have hkk0 : k ≠ k0 := fun hh => hk (hh ▸ List.mem_cons_self _ _)
          have hkks : k ∉ ks := fun hh => hk (List.mem_cons_of_mem _ hh)
          rw [hout k hkks, dictGet?_insert, if_neg (fun hh => hkk0 hh.symm)]

/-- C2: on a just-parsed record whose wild-type and variant values are
    integer count strings (with nonzero wild-type-plus-variant denominators,
    the zero case being the separately documented arithmetic error), the
    frequency derivation rewrites every non-wild-type field to exactly the
    string frequency ++ percent-parenthesized count, with frequency the
    count over the wild-type-plus-count total times 100 rounded to two
    decimals, and stores the wild-type field as a plain integer. -/
theorem msh2_freq_format (d : PyDict) (cfg : ℤ) (w : ℤ) (swt : String)
    (hnd : (d.map Prod.fst).Nodup)
    (hwt : dictGet? wtKey d = some (PyVal.str swt)) (hw : pyInt? swt = some w)
    (hvars : ∀ k v, dictGet? k d = some v → k ≠ wtKey →
      ∃ s c, v = PyVal.str s ∧ pyInt? s = some c ∧ w + c ≠ 0) :
    ∃ d2, msh2FreqLoop cfg (d.map Prod.fst) d = Except.ok d2 ∧
      dictGet? wtKey d2 = some (PyVal.int w) ∧
      (∀ k s c, k ≠ wtKey → dictGet? k d = some (PyVal.str s) → pyInt? s = some c →
        dictGet? k d2 = some (PyVal.str
          (fmtFloat2 (round2Scaled ((c : ℚ) / ((w + c : ℤ) : ℚ) * 100))
            ++ "% (" ++ s ++ ")"))) := by
  have hvar : ∀ k ∈ d.map Prod.fst, k ≠ wtKey →
      ∃ s c, dictGet? k d = some (PyVal.str s) ∧ pyInt? s = some c ∧ w + c ≠ 0 := by
    intro k hk hkne
    obtain ⟨v, hv⟩ := get_of_mem_keys hk
    obtain ⟨s, c, hvs, hc, hnz⟩ := hvars k v hv hkne
    exact ⟨s, c, hvs ▸ hv, hc, hnz⟩
  obtain ⟨d2, hloop, hvals, hwt2, _⟩ := msh2FreqLoop_ok cfg w (d.map Prod.fst) d hnd
    ⟨PyVal.str swt, hwt, pyIntOf_str_some hw⟩ hvar
  refine ⟨d2, hloop, hwt2 (dictGet?_mem_keys hwt), ?_⟩
  intro k s c hkne hg hc
  have := hvals k (dictGet?_mem_keys hg) hkne s c hg hc
  simpa [msh2Out, valRepr] using this

theorem msh2_freq_format_witness :
    (∃ d2, msh2FreqLoop 28
        (([(wtKey, PyVal.str "100"), ("MSH2_c.942+3A>T", PyVal.str "25")] : PyDict).map
          Prod.fst)
        [(wtKey, PyVal.str "100"), ("MSH2_c.942+3A>T", PyVal.str "25")] = Except.ok d2 ∧
      dictGet? wtKey d2 = some (PyVal.int 100) ∧
      (∀ k s c, k ≠ wtKey →
        dictGet? k [(wtKey, PyVal.str "100"), ("MSH2_c.942+3A>T", PyVal.str "25")]
          = some (PyVal.str s) →
        pyInt? s = some c →
        dictGet? k d2 = some (PyVal.str
          (fmtFloat2 (round2Scaled ((c : ℚ) / ((100 + c : ℤ) : ℚ) * 100))
            ++ "% (" ++ s ++ ")")))) ∧
    msh2ParseFile ["", "", "x MSH2_c.942+3_wt MSH2_c.942+3A>T", "x 100 25"] 28 =
      Except.ok [(wtKey, PyVal.int 100), ("MSH2_c.942+3A>T", PyVal.str "20.0% (25)")] := by
  constructor
  · apply msh2_freq_format _ 28 100 "100" (by decide) (by decide) (by decide)
    intro k v hkv hkne
    by_cases h1 : wtKey = k
    · exact absurd h1.symm hkne
    · by_cases h2 : "MSH2_c.942+3A>T" = k
      · have hv : v = PyVal.str "25" := by
          simp only [dictGet?] at hkv
          rw [if_neg h1, if_pos h2] at hkv
          exact (Option.some.inj hkv).symm
        exact ⟨"25", 25, by rw [hv], by decide, by decide⟩
      · simp only [dictGet?] at hkv
        rw [if_neg h1, if_neg h2] at hkv
        exact Option.noConfusion hkv
  · with_unfolding_all decide

/-- C4: on a record of integer counts whose wild-type count is 0 and some
    variant count is 0, the frequency derivation raises ZeroDivisionError:
    the zero-plus-zero denominator is neither guarded nor handled. -/
theorem msh2_zero_denominator (d : PyDict) (cfg : ℤ) (swt : String)
    (hnd : (d.map Prod.fst).Nodup)
    (hwt : dictGet? wtKey d = some (PyVal.str swt)) (hw : pyInt? swt = some 0)
    (hall : ∀ k v, dictGet? k d = some v → ∃ n, pyIntOf v = Except.ok n)
    (hzero : ∃ k s, k ≠ wtKey ∧ dictGet? k d = some (PyVal.str s) ∧ pyInt? s = some 0) :
    msh2FreqLoop cfg (d.map Prod.fst) d = Except.error PyErr.zeroDivisionError := by
  apply msh2FreqLoop_zero cfg (d.map Prod.fst) d hnd
  · exact ⟨PyVal.str swt, hwt, pyIntOf_str_some hw⟩
  · intro k hk
    obtain ⟨v, hv⟩ := get_of_mem_keys hk
    obtain ⟨n, hn⟩ := hall k v hv
    exact ⟨v, n, hv, hn⟩
  · obtain ⟨k, s, hkne, hg, hs⟩ := hzero
    exact ⟨k, dictGet?_mem_keys hg, hkne, PyVal.str s, hg, pyIntOf_str_some hs⟩

theorem msh2_zero_denominator_witness :
    msh2FreqLoop 28
      (([(wtKey, PyVal.str "0"), ("MSH2_c.942+3A>T", PyVal.str "0")] : PyDict).map Prod.fst)
      [(wtKey, PyVal.str "0"), ("MSH2_c.942+3A>T", PyVal.str "0")] =
      Except.error PyErr.zeroDivisionError := by
  apply msh2_zero_denominator _ 28 "0" (by decide) (by decide) (by decide)
  · intro k v hkv
    by_cases h1 : wtKey = k
    · have hv : v = PyVal.str "0" := by
        simp only [dictGet?] at hkv
        rw [if_pos h1] at hkv
        exact (Option.some.inj hkv).symm
      exact ⟨0, by rw [hv]; decide⟩
    · by_cases h2 : "MSH2_c.942+3A>T" = k
      · have hv : v = PyVal.str "0" := by
          simp only [dictGet?] at hkv
          rw [if_neg h1, if_pos h2] at hkv
          exact (Option.some.inj hkv).symm
        exact ⟨0, by rw [hv]; decide⟩
      · simp only [dictGet?] at hkv
        rw [if_neg h1, if_neg h2] at hkv
        exact Option.noConfusion hkv
  · exact ⟨"MSH2_c.942+3A>T", "0", by decide, by decide, by decide⟩

theorem msh2_absent_wt_cex :
    4 ≤ (["a", "b", "x", "y"] : List String).length ∧
    dictGet? wtKey (msh2Extract ["a", "b", "x", "y"]) = none ∧
    msh2ParseFile ["a", "b", "x", "y"] 28 = Except.ok [] :=
  ⟨by decide, by decide, by decide⟩

/-- C5 (amended): on an MSH2 input with at least 3 lines, the parser fails
    with a propagated hard error whenever the extracted mapping is nonempty
    and the wild-type key is absent from it, or some extracted count value
    is not parseable as an integer; the failure is not recovered within the
    parser (when the extracted mapping is empty the absent wild-type key is
    never consulted and the parser returns the empty mapping). -/
theorem msh2_parse_hard_errors (lines : List String) (cfg : ℤ) (h3 : 3 ≤ lines.length)
    (hbad : (msh2Extract lines ≠ [] ∧ dictGet? wtKey (msh2Extract lines) = none) ∨
      (∃ k s, dictGet? k (msh2Extract lines) = some (PyVal.str s) ∧ pyInt? s = none)) :
    ∃ e, msh2ParseFile lines cfg = Except.error e := by
  by_cases h4 : lines.length < 4
  · exact ⟨PyErr.indexError, by unfold msh2ParseFile; rw [if_neg (by omega), if_pos h4]⟩
  · have hnd : ((msh2Extract lines).map Prod.fst).Nodup := keys_nodup_buildDict _ _
    unfold msh2ParseFile
    rw [if_neg (by omega), if_neg h4]
    rcases hbad with ⟨hne, hno⟩ | ⟨k, s, hgv, hs⟩
    · rcases hE : msh2Extract lines with _ | ⟨⟨k0, v0⟩, rest⟩
      · exact absurd hE hne
      · rw [hE] at hno
        exact msh2FreqLoop_no_wt cfg k0 v0 rest hno
    · exact msh2FreqLoop_bad cfg _ _ hnd ⟨k, dictGet?_mem_keys hgv, s, hgv, hs⟩

theorem msh2_parse_hard_errors_witness :
    ∃ e, msh2ParseFile ["a", "b", "x w k", "x 1 z"] 28 = Except.error e :=
  msh2_parse_hard_errors ["a", "b", "x w k", "x 1 z"] 28 (by decide)
    (Or.inr ⟨"k", "z", by decide, by decide⟩)
